import Mathlib

/-!
Shallow embedding of the slipc SLIP encoder and decoder
(src/src/slipc.c, src/src/slipc_io.c, src/include/slipc.h).

Bytes are modelled as natural numbers; the C code only ever compares a
byte against the four reserved values and copies it, so no modular
arithmetic arises.  The engine requests exactly one byte per read and
writes exactly one byte per write call, so a byte source is modelled by
its response trace: a list of read events, each carrying the reported
length, the byte delivered, and the reader status.  Reading past the end
of the trace reports length 0 with end-of-file, which is exactly how the
in-memory array reader of slipc_io.c behaves once exhausted.  A byte
sink is modelled as a state type together with a single-byte write
function returning the new state, the reported length and the status.
-/

/-- Reserved SLIP value END, 0xC0 (slipc.h, enum slipc_char). -/
def SLIPC_END : Nat := 0xC0

/-- Reserved SLIP value ESC, 0xDB (slipc.h, enum slipc_char). -/
def SLIPC_ESC : Nat := 0xDB

/-- Reserved SLIP value ESC_END, 0xDC (slipc.h, enum slipc_char). -/
def SLIPC_ESC_END : Nat := 0xDC

/-- Reserved SLIP value ESC_ESC, 0xDD (slipc.h, enum slipc_char). -/
def SLIPC_ESC_ESC : Nat := 0xDD

/-- Status codes of a writer callback (slipc_io.h). -/
inductive slipc_io_writer_result_t where
  | ok
  | eof
  | error
deriving DecidableEq, Repr

/-- Status codes of a reader callback (slipc_io.h). -/
inductive slipc_io_reader_result_t where
  | more
  | eof
  | error
deriving DecidableEq, Repr

/-- Result codes for encoder operations (slipc.h). -/
inductive slipc_encoder_result_t where
  | ok
  | ioError
deriving DecidableEq, Repr

/-- Result codes for decoder operations (slipc.h). -/
inductive slipc_decoder_result_t where
  | eof
  | more
  | notFound
  | ioError
deriving DecidableEq, Repr

/-- One response of a byte source to a one-byte read request: the
reported length, the byte delivered (meaningful when the length is 1),
and the reader status. -/
structure ReadEvent where
  len : Nat
  byte : Nat
  res : slipc_io_reader_result_t
deriving DecidableEq, Repr

/-- A byte sink: caller-owned state of type s plus a single-byte write
operation returning the new state, the reported length, and the status
(slipc_io.h, struct slipc_io_writer).  All writes the engine performs
request exactly one byte. -/
structure slipc_io_writer_t (s : Type) where
  write : s → Nat → s × Nat × slipc_io_writer_result_t

/-- Encoder instance: only the start-byte policy (slipc.h). -/
structure slipc_encoder_t where
  startbyte : Bool
deriving DecidableEq, Repr

/-- Decoder instance: start-byte policy, previously consumed wire byte,
malformed flag (slipc.h, struct slipc_decoder). -/
structure slipc_decoder_t where
  startbyte : Bool
  prev : Nat
  malformed : Bool
deriving DecidableEq, Repr

/-- slipc_encoder_new: encoder with the given start-byte policy. -/
def slipc_encoder_new (startbyte : Bool) : slipc_encoder_t :=
  { startbyte := startbyte }

/-- slipc_decoder_new: startbyte as given, prev = SLIPC_END,
malformed = false. -/
def slipc_decoder_new (startbyte : Bool) : slipc_decoder_t :=
  { startbyte := startbyte, prev := SLIPC_END, malformed := false }

/-- slipc_decoder_is_malformed: query the malformed flag. -/
def slipc_decoder_is_malformed (self : slipc_decoder_t) : Bool :=
  self.malformed

/-- The in-memory array reader callback (slipc_io.c,
slipc_array_reader_read): delivers min(remaining, requested) bytes,
advances, reports EOF exactly when the remaining length has reached 0.
Returns the remaining buffer, the bytes delivered, and the status. -/
def slipc_array_reader_read (buf : List Nat) (reqLen : Nat) :
    List Nat × List Nat × slipc_io_reader_result_t :=
  let l := min buf.length reqLen
  (buf.drop l, buf.take l,
    if buf.length - l = 0 then .eof else .more)

/-- Response trace of the array reader under one-byte read requests:
each byte arrives with length 1, the status is EOF on the read that
delivers the last byte and MORE before that.  An exhausted trace (and
the empty buffer) reads as length 0 with EOF. -/
def arrayReaderScript : List Nat → List ReadEvent
  | [] => []
  | b :: rest =>
      ⟨1, b, if rest = [] then .eof else .more⟩ :: arrayReaderScript rest

/-- The trace agrees with iterating the array reader callback with
one-byte requests. -/
theorem arrayReaderScript_step (b : Nat) (rest : List Nat) :
    slipc_array_reader_read (b :: rest) 1
      = (rest, [b], if rest = [] then .eof else .more) := by
  cases rest <;> simp [slipc_array_reader_read]

/-- The in-memory array writer callback (slipc_io.c,
slipc_array_writer_write): stores min(capacity, requested) bytes,
reports that count, and returns EOF exactly when the capacity has
reached 0.  The state is the remaining capacity and the bytes stored so
far. -/
def slipc_array_writer_write (cap : Nat) (out : List Nat)
    (bytes : List Nat) : (Nat × List Nat) × Nat × slipc_io_writer_result_t :=
  let l := min cap bytes.length
  let out1 := out ++ bytes.take l
  let cap1 := cap - l
  ((cap1, out1), l, if cap1 = 0 then .eof else .ok)

/-- The array writer as a sink over (remaining capacity, stored bytes). -/
def arrayWriterW : slipc_io_writer_t (Nat × List Nat) :=
  ⟨fun st b => slipc_array_writer_write st.1 st.2 [b]⟩

/-- An always-succeeding accumulating sink: the sufficiently large
destination.  Its state is the list of bytes written so far. -/
def okSink : slipc_io_writer_t (List Nat) :=
  ⟨fun st b => (st ++ [b], 1, .ok)⟩

/-- slipc_write_byte (slipc.c): write one byte, return the callback
triple; callers inspect only the status. -/
def slipc_write_byte {s : Type} (wr : slipc_io_writer_t s) (st : s)
    (byte : Nat) : s × Nat × slipc_io_writer_result_t :=
  wr.write st byte

/-- slipc_write_end_byte (slipc.c): write the END byte, return the
callback triple; callers inspect only the status. -/
def slipc_write_end_byte {s : Type} (wr : slipc_io_writer_t s) (st : s) :
    s × Nat × slipc_io_writer_result_t :=
  wr.write st SLIPC_END

/-- slipc_encode_byte (slipc.c): END and ESC are replaced by a two-byte
escape sequence, everything else passes through; any write that does not
report OK with length 1 aborts with an I/O error. -/
def slipc_encode_byte {s : Type} (wr : slipc_io_writer_t s) (st : s)
    (byte : Nat) : s × slipc_encoder_result_t :=
  let p : Nat × Nat :=
    if byte = SLIPC_END then (SLIPC_ESC, SLIPC_ESC_END)
    else if byte = SLIPC_ESC then (SLIPC_ESC, SLIPC_ESC_ESC)
    else (byte, 0)
  let byte1 := p.1
  let stuffbyte := p.2
  if stuffbyte ≠ 0 then
    match wr.write st byte1 with
    | (st1, len1, res1) =>
      if res1 ≠ .ok ∨ len1 ≠ 1 then (st1, .ioError)
      else
        match wr.write st1 stuffbyte with
        | (st2, len2, res2) =>
          if res2 ≠ .ok ∨ len2 ≠ 1 then (st2, .ioError)
          else (st2, .ok)
  else
    match wr.write st byte1 with
    | (st1, len1, res1) =>
      if res1 ≠ .ok ∨ len1 ≠ 1 then (st1, .ioError)
      else (st1, .ok)

/-- The loop body of slipc_encoder_transfer (slipc.c): read one byte
(a read that is not exactly one byte, or a reader error, is an I/O
error), encode it, and on reader EOF append the terminating END. -/
def slipc_encoder_transfer_loop {s : Type} (wr : slipc_io_writer_t s) :
    List ReadEvent → s → s × slipc_encoder_result_t
  | [], st => (st, .ioError)
  | e :: rest, st =>
    if e.len ≠ 1 ∨ e.res = .error then (st, .ioError)
    else
      match slipc_encode_byte wr st e.byte with
      | (st1, .ioError) => (st1, .ioError)
      | (st1, .ok) =>
        if e.res = .eof then
          match slipc_write_end_byte wr st1 with
          | (st2, _, res2) =>
            if res2 ≠ .ok then (st2, .ioError) else (st2, .ok)
        else slipc_encoder_transfer_loop wr rest st1

/-- slipc_encoder_transfer (slipc.c): optionally write the leading END,
then run the transfer loop. -/
def slipc_encoder_transfer {s : Type} (self : slipc_encoder_t)
    (wr : slipc_io_writer_t s) (script : List ReadEvent) (st : s) :
    s × slipc_encoder_result_t :=
  if self.startbyte then
    match slipc_write_end_byte wr st with
    | (st1, _, res) =>
      if res ≠ .ok then (st1, .ioError)
      else slipc_encoder_transfer_loop wr script st1
  else slipc_encoder_transfer_loop wr script st

/-- slipc_encode_packet (slipc.c): transfer from an array reader over
the payload buffer. -/
def slipc_encode_packet {s : Type} (wr : slipc_io_writer_t s) (st : s)
    (buf : List Nat) (startbyte : Bool) : s × slipc_encoder_result_t :=
  slipc_encoder_transfer (slipc_encoder_new startbyte) wr
    (arrayReaderScript buf) st

/-- slipc_decode_byte (slipc.c): prev is unconditionally replaced by the
wire byte; END signals end of packet; after a previous ESC the two valid
escape codes are unescaped and anything else is passed through with the
malformed flag set; a lone ESC emits nothing. -/
def slipc_decode_byte {s : Type} (self : slipc_decoder_t)
    (wr : slipc_io_writer_t s) (st : s) (byte : Nat) :
    slipc_decoder_t × s × slipc_decoder_result_t :=
  let prev := self.prev
  let self1 := { self with prev := byte }
  if byte = SLIPC_END then (self1, st, .eof)
  else if prev = SLIPC_ESC then
    if byte = SLIPC_ESC_END then
      match slipc_write_byte wr st SLIPC_END with
      | (st1, _, res) =>
        if res ≠ .ok then (self1, st1, .ioError) else (self1, st1, .more)
    else if byte = SLIPC_ESC_ESC then
      match slipc_write_byte wr st SLIPC_ESC with
      | (st1, _, res) =>
        if res ≠ .ok then (self1, st1, .ioError) else (self1, st1, .more)
    else
      let self2 := { self1 with malformed := true }
      match slipc_write_byte wr st byte with
      | (st1, _, res) =>
        if res ≠ .ok then (self2, st1, .ioError) else (self2, st1, .more)
  else if byte = SLIPC_ESC then (self1, st, .more)
  else
    match slipc_write_byte wr st byte with
    | (st1, _, res) =>
      if res ≠ .ok then (self1, st1, .ioError) else (self1, st1, .more)

/-- slipc_skip_to_start (slipc.c): discard bytes until an END is read;
a read longer than one byte or a reader error is an I/O error, a
zero-length read means the start byte was not found. -/
def slipc_skip_to_start :
    List ReadEvent → List ReadEvent × slipc_decoder_result_t
  | [] => ([], .notFound)
  | e :: rest =>
    if e.len > 1 ∨ e.res = .error then (rest, .ioError)
    else if e.len = 0 then (rest, .notFound)
    else if e.byte = SLIPC_END then (rest, .more)
    else slipc_skip_to_start rest

/-- The loop body of slipc_decoder_transfer (slipc.c): a zero-length EOF
read returns NOT_FOUND, any other read that is not exactly one byte (or
a reader error) is an I/O error; the byte is decoded, END ends the
packet, and the loop continues only while both the decoder and the
reader report MORE. -/
def slipc_decoder_transfer_loop {s : Type} (wr : slipc_io_writer_t s) :
    List ReadEvent → slipc_decoder_t → s →
      slipc_decoder_t × s × slipc_decoder_result_t
  | [], d, st => (d, st, .notFound)
  | e :: rest, d, st =>
    if e.len = 0 ∧ e.res = .eof then (d, st, .notFound)
    else if e.len ≠ 1 ∨ e.res = .error then (d, st, .ioError)
    else
      match slipc_decode_byte d wr st e.byte with
      | (d1, st1, dres) =>
        if dres = .eof then (d1, st1, .eof)
        else if dres = .more ∧ e.res = .more then
          slipc_decoder_transfer_loop wr rest d1 st1
        else (d1, st1, .more)

/-- slipc_decoder_transfer (slipc.c): under the start-byte policy first
skip to the start byte (anything but MORE from the skip returns
NOT_FOUND), then run the transfer loop. -/
def slipc_decoder_transfer {s : Type} (self : slipc_decoder_t)
    (wr : slipc_io_writer_t s) (script : List ReadEvent) (st : s) :
    slipc_decoder_t × s × slipc_decoder_result_t :=
  if self.startbyte then
    match slipc_skip_to_start script with
    | (script1, .more) => slipc_decoder_transfer_loop wr script1 self st
    | (_, _) => (self, st, .notFound)
  else slipc_decoder_transfer_loop wr script self st

/-- slipc_decoder_decode_packet (slipc.c): transfer from an array reader
over the wire buffer. -/
def slipc_decoder_decode_packet {s : Type} (self : slipc_decoder_t)
    (wr : slipc_io_writer_t s) (st : s) (buf : List Nat) :
    slipc_decoder_t × s × slipc_decoder_result_t :=
  slipc_decoder_transfer self wr (arrayReaderScript buf) st

/-- The stuffing table: the bytes slipc_encode_byte writes for one
payload byte. -/
def stuffBytes (b : Nat) : List Nat :=
  if b = SLIPC_END then [SLIPC_ESC, SLIPC_ESC_END]
  else if b = SLIPC_ESC then [SLIPC_ESC, SLIPC_ESC_ESC]
  else [b]

/-- Encoding one byte into the accumulating sink appends exactly the
stuffing table entry and succeeds. -/
theorem encode_byte_okSink (st : List Nat) (b : Nat) :
    slipc_encode_byte okSink st b = (st ++ stuffBytes b, .ok) := by
  by_cases hEnd : b = SLIPC_END
  · simp [slipc_encode_byte, okSink, stuffBytes, hEnd,
      SLIPC_END, SLIPC_ESC, SLIPC_ESC_END, SLIPC_ESC_ESC]
  · by_cases hEsc : b = SLIPC_ESC
    · simp [slipc_encode_byte, okSink, stuffBytes, hEnd, hEsc,
        SLIPC_END, SLIPC_ESC, SLIPC_ESC_END, SLIPC_ESC_ESC]
    · simp [slipc_encode_byte, okSink, stuffBytes, hEnd, hEsc]

/-- The encoder transfer loop over a nonempty array-reader trace into
the accumulating sink appends the stuffed payload and the trailing END
and succeeds. -/
theorem encoder_loop_okSink :
    ∀ (S : List Nat) (st : List Nat), S ≠ [] →
      slipc_encoder_transfer_loop okSink (arrayReaderScript S) st
        = (st ++ S.flatMap stuffBytes ++ [SLIPC_END], .ok)
  | [], _, h => absurd rfl h
  | [b], st, _ => by
    have hs : arrayReaderScript [b] = [⟨1, b, .eof⟩] := by
      simp [arrayReaderScript]
    rw [hs]
    simp only [slipc_encoder_transfer_loop, encode_byte_okSink]
    simp [slipc_write_end_byte, okSink]
  | b :: c :: S, st, _ => by
    have hs : arrayReaderScript (b :: c :: S)
        = ⟨1, b, .more⟩ :: arrayReaderScript (c :: S) := by
      simp [arrayReaderScript]
    rw [hs]
    have hrec := encoder_loop_okSink (c :: S) (st ++ stuffBytes b) (by simp)
    generalize hL : arrayReaderScript (c :: S) = L at hrec ⊢
    simp only [slipc_encoder_transfer_loop, encode_byte_okSink]
    simp [hrec]

/-- Claim C2: slipc_encode_byte writes exactly [ESC, ESC_END] for END,
exactly [ESC, ESC_ESC] for ESC, and exactly the byte itself, one byte,
for every other value, including the literal ESC_END and ESC_ESC
values. -/
theorem slipc_encode_byte_stuffing (b : Nat) :
    slipc_encode_byte okSink [] b
      = ((if b = SLIPC_END then [SLIPC_ESC, SLIPC_ESC_END]
          else if b = SLIPC_ESC then [SLIPC_ESC, SLIPC_ESC_ESC]
          else [b]), .ok) := by
  rw [encode_byte_okSink]
  simp [stuffBytes]

/-- Claim C5: slipc_encode_packet on payload [1,2,3] writes exactly
[1,2,3,END] without the start byte and exactly [END,1,2,3,END] with it,
returning success both times. -/
theorem slipc_encode_packet_framing :
    slipc_encode_packet okSink [] [1, 2, 3] false = ([1, 2, 3, SLIPC_END], .ok)
    ∧ slipc_encode_packet okSink [] [1, 2, 3] true
        = ([SLIPC_END, 1, 2, 3, SLIPC_END], .ok) := by
  constructor <;> decide

/-- The reserved values are pairwise distinct: ESC is not END. -/
@[simp] theorem esc_ne_end : SLIPC_ESC ≠ SLIPC_END := by decide

/-- ESC_END is not END. -/
@[simp] theorem escEnd_ne_end : SLIPC_ESC_END ≠ SLIPC_END := by decide

/-- ESC_ESC is not END. -/
@[simp] theorem escEsc_ne_end : SLIPC_ESC_ESC ≠ SLIPC_END := by decide

/-- ESC_END is not ESC. -/
@[simp] theorem escEnd_ne_esc : SLIPC_ESC_END ≠ SLIPC_ESC := by decide

/-- ESC_ESC is not ESC. -/
@[simp] theorem escEsc_ne_esc : SLIPC_ESC_ESC ≠ SLIPC_ESC := by decide

/-- ESC_ESC is not ESC_END. -/
@[simp] theorem escEsc_ne_escEnd : SLIPC_ESC_ESC ≠ SLIPC_ESC_END := by decide

/-- END is not ESC. -/
@[simp] theorem end_ne_esc : SLIPC_END ≠ SLIPC_ESC := by decide

/-- One write into the accumulating sink appends the byte and succeeds. -/
@[simp] theorem okSink_write (st : List Nat) (b : Nat) :
    okSink.write st b = (st ++ [b], 1, .ok) := rfl

/-- The array-reader trace of a buffer with at least one byte remaining
after the head reports the head with status MORE. -/
theorem arrayReaderScript_cons (b : Nat) (rest : List Nat) (h : rest ≠ []) :
    arrayReaderScript (b :: rest)
      = ⟨1, b, .more⟩ :: arrayReaderScript rest := by
  simp [arrayReaderScript, h]

/-- The decoder transfer loop over the array-reader trace of a stuffed
payload followed by the terminating END, started in a state whose prev
is not ESC, emits exactly the payload into the accumulating sink,
finishes with prev = END, leaves the malformed flag alone, and reports
end of packet. -/
theorem decoder_loop_roundtrip :
    ∀ (S : List Nat) (d : slipc_decoder_t) (st : List Nat),
      d.prev ≠ SLIPC_ESC →
      slipc_decoder_transfer_loop okSink
          (arrayReaderScript (S.flatMap stuffBytes ++ [SLIPC_END])) d st
        = ({ d with prev := SLIPC_END }, st ++ S, .eof)
  | [], d, st, hp => by
    simp [arrayReaderScript, slipc_decoder_transfer_loop, slipc_decode_byte]
  | b :: S, d, st, hp => by
    have hrest : S.flatMap stuffBytes ++ [SLIPC_END] ≠ [] := by simp
    by_cases hbe : b = SLIPC_END
    · subst hbe
      rw [show (SLIPC_END :: S).flatMap stuffBytes ++ [SLIPC_END]
            = SLIPC_ESC :: SLIPC_ESC_END
                :: (S.flatMap stuffBytes ++ [SLIPC_END]) by
          simp [stuffBytes]]
      rw [arrayReaderScript_cons _ _ (by simp),
        arrayReaderScript_cons _ _ hrest]
      have hrec := decoder_loop_roundtrip S
        { d with prev := SLIPC_ESC_END } (st ++ [SLIPC_END]) (by simp)
      generalize hL :
        arrayReaderScript (S.flatMap stuffBytes ++ [SLIPC_END]) = L at hrec ⊢
      simp only [slipc_decoder_transfer_loop]
      simp at hrec
      simp [slipc_decode_byte, slipc_write_byte, hp, hrec]
    · by_cases hbc : b = SLIPC_ESC
      · subst hbc
        rw [show (SLIPC_ESC :: S).flatMap stuffBytes ++ [SLIPC_END]
              = SLIPC_ESC :: SLIPC_ESC_ESC
                  :: (S.flatMap stuffBytes ++ [SLIPC_END]) by
            simp [stuffBytes]]
        rw [arrayReaderScript_cons _ _ (by simp),
          arrayReaderScript_cons _ _ hrest]
        have hrec := decoder_loop_roundtrip S
          { d with prev := SLIPC_ESC_ESC } (st ++ [SLIPC_ESC]) (by simp)
        generalize hL :
          arrayReaderScript (S.flatMap stuffBytes ++ [SLIPC_END]) = L
          at hrec ⊢
        simp only [slipc_decoder_transfer_loop]
        simp at hrec
        simp [slipc_decode_byte, slipc_write_byte, hp, hrec]
      · rw [show (b :: S).flatMap stuffBytes ++ [SLIPC_END]
              = b :: (S.flatMap stuffBytes ++ [SLIPC_END]) by
            simp [stuffBytes, hbe, hbc]]
        rw [arrayReaderScript_cons _ _ hrest]
        have hrec := decoder_loop_roundtrip S
          { d with prev := b } (st ++ [b]) hbc
        generalize hL :
          arrayReaderScript (S.flatMap stuffBytes ++ [SLIPC_END]) = L
          at hrec ⊢
        simp only [slipc_decoder_transfer_loop]
        simp at hrec
        simp [slipc_decode_byte, slipc_write_byte, hp, hbe, hbc, hrec]

/-- Claim C1: encoding any finite byte sequence without the start byte
into a sufficiently large sink and decoding the resulting wire bytes
with a freshly constructed decoder without the start byte writes exactly
the original sequence to the output sink. -/
theorem slipc_roundtrip (S : List Nat) (h : ∀ b ∈ S, b < 256) :
    (slipc_decoder_decode_packet (slipc_decoder_new false) okSink []
        (slipc_encode_packet okSink [] S false).1).2.1 = S := by
  cases S with
  | nil => decide
  | cons b T =>
    have henc := encoder_loop_okSink (b :: T) [] (by simp)
    have hwire : (slipc_encode_packet okSink [] (b :: T) false).1
        = (b :: T).flatMap stuffBytes ++ [SLIPC_END] := by
      simp [slipc_encode_packet, slipc_encoder_transfer, slipc_encoder_new,
        henc]
    rw [hwire]
    have hdec := decoder_loop_roundtrip (b :: T) (slipc_decoder_new false) []
      (by simp [slipc_decoder_new])
    simp only [slipc_decoder_decode_packet, slipc_decoder_transfer,
      slipc_decoder_new] at hdec ⊢
    simp only [Bool.false_eq_true, if_false] at hdec ⊢
    rw [hdec]
    simp

/-- Witness for claim C1 at a payload containing every reserved value. -/
theorem slipc_roundtrip_witness :
    (∀ b ∈ [SLIPC_END, SLIPC_ESC, SLIPC_ESC_END, SLIPC_ESC_ESC, 7],
        b < 256)
    ∧ (slipc_decoder_decode_packet (slipc_decoder_new false) okSink []
          (slipc_encode_packet okSink []
            [SLIPC_END, SLIPC_ESC, SLIPC_ESC_END, SLIPC_ESC_ESC, 7]
            false).1).2.1
        = [SLIPC_END, SLIPC_ESC, SLIPC_ESC_END, SLIPC_ESC_ESC, 7] :=
  ⟨by decide,
    slipc_roundtrip [SLIPC_END, SLIPC_ESC, SLIPC_ESC_END, SLIPC_ESC_ESC, 7]
      (by decide)⟩

/-- Counterexample to claim C3 as stated: in the ESCAPED state the input
byte END is not passed through with the malformed flag set and the More
signal; the code checks for END before looking at prev, returns the
EndOfPacket signal, emits nothing, and leaves the malformed flag
false. -/
theorem slipc_escaped_end_not_more :
    slipc_decode_byte ⟨false, SLIPC_ESC, false⟩ okSink [] SLIPC_END
      = (⟨false, SLIPC_END, false⟩, [], .eof)
    ∧ slipc_decoder_result_t.eof ≠ .more := by
  constructor
  · decide
  · decide

/-- Claim C3 as amended: in the ESCAPED state, for every input byte
other than ESC_END, ESC_ESC and END, slipc_decode_byte emits the byte
unchanged, sets the malformed flag, stores the byte as prev (the NORMAL
state except when the byte is ESC itself, which re-enters ESCAPED), and
returns the More signal. -/
theorem slipc_escaped_other_malformed (d : slipc_decoder_t)
    (st : List Nat) (b : Nat) (hp : d.prev = SLIPC_ESC)
    (h1 : b ≠ SLIPC_ESC_END) (h2 : b ≠ SLIPC_ESC_ESC)
    (h3 : b ≠ SLIPC_END) :
    slipc_decode_byte d okSink st b
      = ({ d with prev := b, malformed := true }, st ++ [b], .more) := by
  simp [slipc_decode_byte, slipc_write_byte, hp, h1, h2, h3]

/-- Witness for the amended claim C3 at the spec example byte 9. -/
theorem slipc_escaped_other_malformed_witness :
    slipc_decode_byte ⟨false, SLIPC_ESC, false⟩ okSink [] 9
      = (⟨false, 9, true⟩, [9], .more) :=
  slipc_escaped_other_malformed ⟨false, SLIPC_ESC, false⟩ [] 9 rfl
    (by decide) (by decide) (by decide)

/-- Claim C4, evaluated at the failing input: a source that delivers one
payload byte with MORE and then reports end-of-stream with zero bytes
makes slipc_decoder_transfer return NOT_FOUND, not the incomplete-packet
signal MORE, even though a mid-packet byte was already consumed and
emitted. -/
theorem slipc_midpacket_zero_eof_notfound :
    slipc_decoder_transfer (slipc_decoder_new false) okSink
        [⟨1, 1, .more⟩, ⟨0, 0, .eof⟩] []
      = (⟨false, 1, false⟩, [1], .notFound)
    ∧ slipc_decoder_result_t.notFound ≠ .more := by
  constructor
  · decide
  · decide

/-- A buffer containing no END byte makes the start-byte scan exhaust
the source and report NOT_FOUND. -/
theorem skip_no_end :
    ∀ (buf : List Nat), SLIPC_END ∉ buf →
      slipc_skip_to_start (arrayReaderScript buf) = ([], .notFound)
  | [], _ => by simp [arrayReaderScript, slipc_skip_to_start]
  | b :: rest, h => by
    have hb : b ≠ SLIPC_END := by
      intro e
      exact h (by simp [e])
    have hr : SLIPC_END ∉ rest := fun hh => h (by simp [hh])
    cases rest with
    | nil => simp [arrayReaderScript, slipc_skip_to_start, hb]
    | cons c t =>
      have hrec := skip_no_end (c :: t) hr
      rw [arrayReaderScript_cons _ _ (by simp)]
      generalize hL : arrayReaderScript (c :: t) = L at hrec ⊢
      simp [slipc_skip_to_start, hb, hrec]

/-- Claim C6: an empty source yields NOT_FOUND with nothing written
under either start-byte policy, and under the start-byte policy any
buffer containing no END byte yields NOT_FOUND with nothing written. -/
theorem slipc_no_delimiter :
    (∀ (s : Type) (wr : slipc_io_writer_t s) (st : s) (sb : Bool),
        slipc_decoder_transfer (slipc_decoder_new sb) wr [] st
          = (slipc_decoder_new sb, st, .notFound))
    ∧ ∀ (buf : List Nat), SLIPC_END ∉ buf →
        ∀ (s : Type) (wr : slipc_io_writer_t s) (st : s),
          slipc_decoder_decode_packet (slipc_decoder_new true) wr st buf
            = (slipc_decoder_new true, st, .notFound) := by
  constructor
  · intro s wr st sb
    cases sb <;>
      simp [slipc_decoder_transfer, slipc_decoder_new,
        slipc_decoder_transfer_loop, slipc_skip_to_start]
  · intro buf h s wr st
    have hskip := skip_no_end buf h
    simp [slipc_decoder_decode_packet, slipc_decoder_transfer,
      slipc_decoder_new, hskip]

/-- Witness for claim C6 at a three-byte buffer without END. -/
theorem slipc_no_delimiter_witness :
    slipc_decoder_decode_packet (slipc_decoder_new true) okSink [] [1, 2, 3]
      = (slipc_decoder_new true, [], .notFound) :=
  slipc_no_delimiter.2 [1, 2, 3] (by decide) (List Nat) okSink []

/-- Claim C7: after every call to slipc_decode_byte the prev field holds
the wire byte just consumed, in every branch, for every sink. -/
theorem slipc_decode_byte_prev_wire :
    ∀ (s : Type) (wr : slipc_io_writer_t s) (d : slipc_decoder_t)
      (st : s) (b : Nat),
      (slipc_decode_byte d wr st b).1.prev = b := by
  intro s wr d st b
  simp only [slipc_decode_byte, slipc_write_byte]
  repeat' split
  all_goals rfl

/-- slipc_decode_byte never clears the malformed flag, for any sink. -/
theorem decode_byte_malformed_mono {s : Type} (wr : slipc_io_writer_t s)
    (d : slipc_decoder_t) (st : s) (b : Nat) (h : d.malformed = true) :
    (slipc_decode_byte d wr st b).1.malformed = true := by
  simp only [slipc_decode_byte, slipc_write_byte]
  repeat' split
  all_goals simp_all

/-- The decoder transfer loop never clears the malformed flag, for any
sink and any source trace. -/
theorem decoder_loop_malformed_mono {s : Type} (wr : slipc_io_writer_t s) :
    ∀ (script : List ReadEvent) (d : slipc_decoder_t) (st : s),
      d.malformed = true →
      (slipc_decoder_transfer_loop wr script d st).1.malformed = true
  | [], _, _, h => h
  | e :: rest, d, st, h => by
    have hd := decode_byte_malformed_mono wr d st e.byte h
    simp only [slipc_decoder_transfer_loop]
    split
    · exact h
    split
    · exact h
    rcases hdb : slipc_decode_byte d wr st e.byte with ⟨d1, st1, dres⟩
    rw [hdb] at hd
    dsimp only at hd ⊢
    split
    · exact hd
    split
    · exact decoder_loop_malformed_mono wr rest d1 st1 hd
    · exact hd

/-- Claim C8: the malformed flag is sticky.  Construction initializes it
to false, slipc_decoder_is_malformed reads it back, and none of
slipc_decode_byte, slipc_decoder_transfer and
slipc_decoder_decode_packet ever changes it from true back to false, for
any sink, source trace and decoder state. -/
theorem slipc_malformed_sticky :
    (∀ sb : Bool, (slipc_decoder_new sb).malformed = false)
    ∧ (∀ d : slipc_decoder_t, slipc_decoder_is_malformed d = d.malformed)
    ∧ (∀ (s : Type) (wr : slipc_io_writer_t s) (d : slipc_decoder_t)
        (st : s) (b : Nat), d.malformed = true →
        (slipc_decode_byte d wr st b).1.malformed = true)
    ∧ (∀ (s : Type) (wr : slipc_io_writer_t s) (script : List ReadEvent)
        (d : slipc_decoder_t) (st : s), d.malformed = true →
        (slipc_decoder_transfer d wr script st).1.malformed = true)
    ∧ ∀ (s : Type) (wr : slipc_io_writer_t s) (buf : List Nat)
        (d : slipc_decoder_t) (st : s), d.malformed = true →
        (slipc_decoder_decode_packet d wr st buf).1.malformed = true := by
  have htr : ∀ (s : Type) (wr : slipc_io_writer_t s)
      (script : List ReadEvent) (d : slipc_decoder_t) (st : s),
      d.malformed = true →
      (slipc_decoder_transfer d wr script st).1.malformed = true := by
    intro s wr script d st h
    unfold slipc_decoder_transfer
    split
    · rcases hsk : slipc_skip_to_start script with ⟨script1, r⟩
      cases r
      case more => exact decoder_loop_malformed_mono wr script1 d st h
      all_goals exact h
    · exact decoder_loop_malformed_mono wr script d st h
  refine ⟨fun _ => rfl, fun _ => rfl,
    fun s wr d st b h => decode_byte_malformed_mono wr d st b h, htr,
    fun s wr buf d st h => htr s wr (arrayReaderScript buf) d st h⟩

/-- Witness for claim C8: a decoder whose malformed flag is already true
keeps it after a single-byte decode and after decoding a whole packet. -/
theorem slipc_malformed_sticky_witness :
    (slipc_decode_byte ⟨false, 0, true⟩ okSink [] 5).1.malformed = true
    ∧ (slipc_decoder_decode_packet ⟨false, SLIPC_END, true⟩ okSink []
        [1, SLIPC_END]).1.malformed = true :=
  ⟨slipc_malformed_sticky.2.2.1 (List Nat) okSink ⟨false, 0, true⟩ [] 5 rfl,
    slipc_malformed_sticky.2.2.2.2 (List Nat) okSink [1, SLIPC_END]
      ⟨false, SLIPC_END, true⟩ [] rfl⟩

/-- Claim C9: slipc_encode_packet on an empty payload reports an I/O
error for every sink, because the transfer loop demands a one-byte read
and the array reader over an empty buffer reports zero bytes with EOF;
into the accumulating sink the only byte ever written is the leading END
under the start-byte policy, and no terminating END. -/
theorem slipc_empty_payload_io_error :
    (∀ (s : Type) (wr : slipc_io_writer_t s) (st : s) (sb : Bool),
        (slipc_encode_packet wr st [] sb).2 = .ioError)
    ∧ ∀ sb : Bool,
        slipc_encode_packet okSink [] [] sb
          = ((if sb then [SLIPC_END] else []), .ioError) := by
  constructor
  · intro s wr st sb
    cases sb
    · simp [slipc_encode_packet, slipc_encoder_transfer, slipc_encoder_new,
        arrayReaderScript, slipc_encoder_transfer_loop]
    · simp only [slipc_encode_packet, slipc_encoder_transfer,
        slipc_encoder_new, arrayReaderScript]
      rcases hw : slipc_write_end_byte wr st with ⟨st1, l1, r1⟩
      simp [slipc_encoder_transfer_loop]
  · intro sb
    cases sb <;> decide

/-- The ESC_END byte is nonzero, so the stuffed-write path is taken. -/
@[simp] theorem escEnd_ne_zero : SLIPC_ESC_END ≠ 0 := by decide

/-- The ESC_ESC byte is nonzero, so the stuffed-write path is taken. -/
@[simp] theorem escEsc_ne_zero : SLIPC_ESC_ESC ≠ 0 := by decide

/-- One write into an array writer with positive remaining capacity
stores the byte, reports one byte, and reports EOF exactly when the
capacity is now exhausted. -/
theorem arrayWriterW_write_pos (cap : Nat) (out : List Nat) (b : Nat)
    (h : 1 ≤ cap) :
    arrayWriterW.write (cap, out) b
      = ((cap - 1, out ++ [b]), 1,
          if cap - 1 = 0 then .eof else .ok) := by
  cases cap with
  | zero => omega
  | succ n =>
    have hm : min (n + 1) 1 = 1 := by omega
    simp [arrayWriterW, slipc_array_writer_write, hm]

/-- Encoding one byte into an array writer whose capacity exceeds the
stuffed length leaves at least one slot free, stores exactly the
stuffing table entry, and succeeds. -/
theorem encode_byte_arrayW (cap : Nat) (out : List Nat) (b : Nat)
    (h : (stuffBytes b).length + 1 ≤ cap) :
    slipc_encode_byte arrayWriterW (cap, out) b
      = ((cap - (stuffBytes b).length, out ++ stuffBytes b), .ok) := by
  by_cases hbe : b = SLIPC_END
  · subst hbe
    rw [show (stuffBytes SLIPC_END).length = 2 by simp [stuffBytes]] at h
    have h1 := arrayWriterW_write_pos cap out SLIPC_ESC (by omega)
    have h2 := arrayWriterW_write_pos (cap - 1) (out ++ [SLIPC_ESC])
      SLIPC_ESC_END (by omega)
    have hc1 : ¬(cap - 1 = 0) := by omega
    have hc2 : ¬(cap - 1 - 1 = 0) := by omega
    simp [slipc_encode_byte, stuffBytes, h1, h2, hc1, hc2, Nat.sub_sub]
    omega
  · by_cases hbc : b = SLIPC_ESC
    · subst hbc
      rw [show (stuffBytes SLIPC_ESC).length = 2 by simp [stuffBytes]] at h
      have h1 := arrayWriterW_write_pos cap out SLIPC_ESC (by omega)
      have h2 := arrayWriterW_write_pos (cap - 1) (out ++ [SLIPC_ESC])
        SLIPC_ESC_ESC (by omega)
      have hc1 : ¬(cap - 1 = 0) := by omega
      have hc2 : ¬(cap - 1 - 1 = 0) := by omega
      simp [slipc_encode_byte, stuffBytes, h1, h2, hc1, hc2, Nat.sub_sub]
      omega
    · rw [show (stuffBytes b).length = 1 by simp [stuffBytes, hbe, hbc]] at h
      have h1 := arrayWriterW_write_pos cap out b (by omega)
      have hc1 : ¬(cap - 1 = 0) := by omega
      simp [slipc_encode_byte, stuffBytes, hbe, hbc, h1, hc1]

/-- The encoder transfer loop over a nonempty payload into an array
writer whose capacity is exactly the wire length stores the whole wire
image, ends with zero capacity, and reports an I/O error from the final
END write, which exhausts the buffer exactly and therefore reports
EOF. -/
theorem encoder_loop_arrayW :
    ∀ (S : List Nat) (out : List Nat), S ≠ [] →
      slipc_encoder_transfer_loop arrayWriterW (arrayReaderScript S)
          ((S.flatMap stuffBytes).length + 1, out)
        = ((0, out ++ S.flatMap stuffBytes ++ [SLIPC_END]), .ioError)
  | [], _, h => absurd rfl h
  | [b], out, _ => by
    have hs : arrayReaderScript [b] = [⟨1, b, .eof⟩] := by
      simp [arrayReaderScript]
    rw [hs]
    have hlen : ([b].flatMap stuffBytes).length = (stuffBytes b).length := by
      simp
    rw [hlen]
    have henc := encode_byte_arrayW ((stuffBytes b).length + 1) out b
      (by omega)
    have hcap : (stuffBytes b).length + 1 - (stuffBytes b).length = 1 := by
      omega
    rw [hcap] at henc
    have hend := arrayWriterW_write_pos 1 (out ++ stuffBytes b) SLIPC_END
      (by omega)
    simp only [slipc_encoder_transfer_loop, henc]
    simp [slipc_write_end_byte, hend]
  | b :: c :: S, out, _ => by
    rw [arrayReaderScript_cons _ _ (by simp)]
    have hflat : ((b :: c :: S).flatMap stuffBytes).length
        = (stuffBytes b).length + (((c :: S).flatMap stuffBytes).length) := by
      simp
    rw [hflat]
    have henc := encode_byte_arrayW
      ((stuffBytes b).length + ((c :: S).flatMap stuffBytes).length + 1)
      out b (by omega)
    have hcap : (stuffBytes b).length + ((c :: S).flatMap stuffBytes).length
        + 1 - (stuffBytes b).length
        = ((c :: S).flatMap stuffBytes).length + 1 := by omega
    rw [hcap] at henc
    have hrec := encoder_loop_arrayW (c :: S) (out ++ stuffBytes b)
      (by simp)
    generalize hL : arrayReaderScript (c :: S) = L at hrec ⊢
    simp only [slipc_encoder_transfer_loop, henc]
    simp at hrec
    simp [hrec]

/-- Claim C10: the array writer reports EOF together with the full byte
count on the write that exactly exhausts its buffer, and encoding a
nonempty payload into an array writer whose capacity is exactly the
encoded wire length stores every wire byte, the trailing END included,
yet reports an I/O error. -/
theorem slipc_exact_capacity_io_error :
    (∀ (out bytes : List Nat),
        slipc_array_writer_write bytes.length out bytes
          = ((0, out ++ bytes), bytes.length, .eof))
    ∧ ∀ (S : List Nat), S ≠ [] →
        slipc_encode_packet arrayWriterW
            ((S.flatMap stuffBytes).length + 1, []) S false
          = ((0, S.flatMap stuffBytes ++ [SLIPC_END]), .ioError) := by
  constructor
  · intro out bytes
    simp [slipc_array_writer_write]
  · intro S h
    have hloop := encoder_loop_arrayW S [] h
    simp only [List.nil_append] at hloop
    simp only [slipc_encode_packet, slipc_encoder_transfer,
      slipc_encoder_new]
    rw [if_neg (by decide)]
    exact hloop

/-- Witness for claim C10 at the one-byte payload 5: capacity 2 holds
the wire bytes 5 and END exactly, both are stored, and the call reports
an I/O error. -/
theorem slipc_exact_capacity_io_error_witness :
    slipc_encode_packet arrayWriterW
        ((([5] : List Nat).flatMap stuffBytes).length + 1, []) [5] false
      = ((0, ([5] : List Nat).flatMap stuffBytes ++ [SLIPC_END]),
          .ioError) :=
  slipc_exact_capacity_io_error.2 [5] (by decide)
